import Mathlib

/-!
A verification development for the LLMTracker normalization pipeline
(`scripts/normalize.py`).  Raw feed documents are modelled as JSON-like
values (`JVal`), Python floats as exact rationals, and each adapter's
per-item processing as a three-valued outcome (`PyR`): a produced record,
a skipped item (explicit `continue` or a caught `ValueError`/`TypeError`/
`KeyError`, including pydantic validation errors, which subclass
`ValueError`), or an uncaught exception that aborts the whole run
(modelled as `none` at the adapter level).  Python dicts are modelled as
association lists with insert-or-overwrite (`insertA`), which preserves
Python's insertion-order semantics.
-/

set_option maxRecDepth 2000

/-- JSON-like values, the shape of the raw feed documents. -/
inductive JVal : Type where
  | jnull : JVal
  | jbool : Bool → JVal
  | jnum : ℚ → JVal
  | jstr : String → JVal
  | jarr : List JVal → JVal
  | jobj : List (String × JVal) → JVal

/-- Python `v == s` for a string literal `s` (equality with a non-string
JSON value is `False`). -/
def isStr (v : JVal) (s : String) : Bool :=
  match v with
  | .jstr t => t = s
  | _ => false

/-- Python truthiness: `None`, `False`, `0`, `""`, `[]`, `{}` are falsy. -/
def truthy : JVal → Bool
  | .jnull => false
  | .jbool b => b
  | .jnum q => q ≠ 0
  | .jstr s => s ≠ ""
  | .jarr l => !l.isEmpty
  | .jobj l => !l.isEmpty

/-- `x or d` in Python: `x` when truthy, else `d`. -/
def orDef (v d : JVal) : JVal := if truthy v then v else d

/-- First-occurrence association-list lookup (Python dict lookup; feed
documents are parsed dicts, so keys are unique). -/
def lookupA {α : Type} (k : String) : List (String × α) → Option α
  | [] => none
  | (k', v) :: t => if k' = k then some v else lookupA k t

/-- `d.get(k, dflt)` on an object's fields. -/
def lookupD (fs : List (String × JVal)) (k : String) (d : JVal) : JVal :=
  (lookupA k fs).getD d

/-- Python dict assignment `d[k] = v`: overwrite in place, else append. -/
def insertA {α : Type} (k : String) (v : α) : List (String × α) → List (String × α)
  | [] => [(k, v)]
  | (k', v') :: t => if k' = k then (k, v) :: t else (k', v') :: insertA k v t

/-- ASCII lowering of a character list (Python `str.lower` on ASCII data). -/
def lowerL (l : List Char) : List Char := l.map Char.toLower

/-- ASCII uppering of a character list (Python `str.upper` on ASCII data). -/
def upperL (l : List Char) : List Char := l.map Char.toUpper

/-- `p.isPrefixOf l` for a pattern given as a string (`str.startswith`). -/
def startsW (l : List Char) (p : String) : Bool := p.toList.isPrefixOf l

/-- Substring containment, `needle in hay` for Python strings. -/
def containsSub (needle : List Char) : List Char → Bool
  | [] => needle.isEmpty
  | c :: t => needle.isPrefixOf (c :: t) || containsSub needle t

/-- `str.split(sep)` for a single-character separator. -/
def pySplitC (sep : Char) : List Char → List (List Char)
  | [] => [[]]
  | c :: t =>
    if c = sep then [] :: pySplitC sep t
    else
      match pySplitC sep t with
      | [] => [[c]]
      | p :: ps => (c :: p) :: ps

/-- Kernel-computable multiplication on ℚ (Batteries marks `Rat.mul`
irreducible; this version is proved equal to `· * ·` below). -/
def qmul (a b : ℚ) : ℚ := mkRat (a.num * b.num) (a.den * b.den)

/-- Kernel-computable `m * 10 ^ e` on ℚ. -/
def qScale10 (m : ℚ) : ℤ → ℚ
  | .ofNat k => mkRat (m.num * (10 : ℤ) ^ k) m.den
  | .negSucc k => mkRat m.num (m.den * 10 ^ (k + 1))

/-- Natural value of a digit list. -/
def digitsVal (l : List Char) : ℕ :=
  l.foldl (fun a c => a * 10 + (c.toNat - 48)) 0

/-- Mantissa of a float literal: `digits`, `digits.digits`, `.digits`, `digits.`.
The value `ip.fp` is the exact rational `(ip·10^|fp| + fp) / 10^|fp|`. -/
def parseMantissa (l : List Char) : Option ℚ :=
  let ip := l.takeWhile Char.isDigit
  match l.dropWhile Char.isDigit with
  | [] => if ip.isEmpty then none else some (digitsVal ip)
  | '.' :: fp =>
    if fp.all Char.isDigit && !(ip.isEmpty && fp.isEmpty) then
      some (mkRat (digitsVal ip * 10 ^ fp.length + digitsVal fp) (10 ^ fp.length))
    else none
  | _ => none

/-- Exponent part after `e`/`E`: optionally signed digit string. -/
def parseExp (l : List Char) : Option ℤ :=
  match l with
  | '+' :: t => if !t.isEmpty && t.all Char.isDigit then some (digitsVal t) else none
  | '-' :: t => if !t.isEmpty && t.all Char.isDigit then some (-(digitsVal t : ℤ)) else none
  | t => if !t.isEmpty && t.all Char.isDigit then some (digitsVal t) else none

/-- Unsigned float literal, with optional exponent. -/
def parseUnsigned (l : List Char) : Option ℚ :=
  let mant := l.takeWhile (fun c => c ≠ 'e' && c ≠ 'E')
  match l.dropWhile (fun c => c ≠ 'e' && c ≠ 'E') with
  | [] => parseMantissa mant
  | _ :: t => (parseMantissa mant).bind fun m => (parseExp t).map fun e => qScale10 m e

/-- Python `float(s)` on a finite decimal literal (leading/trailing
whitespace stripped, optional sign, optional fraction and exponent).
Non-numeric strings yield `none` (a `ValueError` in Python). -/
def parseFloatChars (l : List Char) : Option ℚ :=
  let l := ((l.dropWhile Char.isWhitespace).reverse.dropWhile Char.isWhitespace).reverse
  match l with
  | '+' :: t => parseUnsigned t
  | '-' :: t => (parseUnsigned t).map (fun q => -q)
  | t => parseUnsigned t

/-- Python `int(s)`: optionally signed digit string (whitespace stripped). -/
def parseIntChars (l : List Char) : Option ℤ :=
  let l := ((l.dropWhile Char.isWhitespace).reverse.dropWhile Char.isWhitespace).reverse
  match l with
  | '+' :: t => if !t.isEmpty && t.all Char.isDigit then some (digitsVal t) else none
  | '-' :: t => if !t.isEmpty && t.all Char.isDigit then some (-(digitsVal t : ℤ)) else none
  | t => if !t.isEmpty && t.all Char.isDigit then some (digitsVal t) else none

/-- Python `float(x)` over a JSON value; `none` means a caught
`TypeError`/`ValueError`. -/
def pyFloat : JVal → Option ℚ
  | .jnum q => some q
  | .jbool b => some (if b then 1 else 0)
  | .jstr s => parseFloatChars s.toList
  | _ => none

/-- Python `int(x)` over a JSON value (floats truncate toward zero);
`none` means a caught `TypeError`/`ValueError`. -/
def pyInt : JVal → Option ℤ
  | .jnum q => some (if 0 ≤ q then ⌊q⌋ else ⌈q⌉)
  | .jbool b => some (if b then 1 else 0)
  | .jstr s => parseIntChars s.toList
  | _ => none

/-- Python `round(x, 0)` to an integer uses round-half-to-even; the
fractional part of `q` is compared with `1/2` by cross-multiplying with
the denominator, keeping the computation inside ℤ. -/
def roundHalfEven (q : ℚ) : ℤ :=
  let fl := ⌊q⌋
  let r2 := 2 * (q.num - q.den * fl)
  if r2 < (q.den : ℤ) then fl
  else if (q.den : ℤ) < r2 then fl + 1
  else if fl % 2 = 0 then fl else fl + 1

/-- `round(x, 4)` on an exact rational. -/
def pyRound4 (q : ℚ) : ℚ := mkRat (roundHalfEven (qmul q 10000)) 10000

/-- Price observation from one upstream source (`SourceInfo` in the source). -/
structure SourceInfo : Type where
  price_input : ℚ
  price_output : ℚ
  last_updated : String
deriving DecidableEq

/-- Pricing block of a normalized record (`PricingInfo` in the source). -/
structure PricingInfo : Type where
  input_per_million : ℚ
  output_per_million : ℚ
  currency : String
deriving DecidableEq

/-- A normalized model record (`ModelInfo` in the source).  The `sources`
values are `Option SourceInfo` because `merge_sources` stores the result
of a Python `dict.get`, which can be `None`. -/
structure ModelInfo : Type where
  provider : String
  model_id : String
  display_name : String
  pricing : PricingInfo
  context_window : ℤ
  max_output_tokens : ℤ
  model_type : String
  supports_vision : Bool
  supports_function_calling : Bool
  supports_streaming : Bool
  category : String
  sources : List (String × Option SourceInfo)
  affiliate_links : List (String × String)
deriving DecidableEq

/-- `extract_provider` from the source: namespace before `/`, else ordered
case-insensitive prefix rules, else `"unknown"`. -/
def extract_provider (model_id : String) : String :=
  let l := model_id.toList
  if l.contains '/' then (lowerL ((pySplitC '/' l).headD [])).asString
  else
    let ml := lowerL l
    if startsW ml "gpt-" || startsW ml "o1-" || startsW ml "davinci" ||
        startsW ml "curie" || startsW ml "babbage" || startsW ml "ada" then "openai"
    else if startsW ml "claude" then "anthropic"
    else if startsW ml "gemini" then "google"
    else if startsW ml "mistral" || startsW ml "mixtral" || startsW ml "codestral" then
      "mistral"
    else if startsW ml "llama" then "meta"
    else if startsW ml "deepseek" then "deepseek"
    else if startsW ml "command" then "cohere"
    else "unknown"

/-- Strip a trailing `<sep>` followed by exactly eight digits
(the `re.sub` of `-\d{8}$` and `:\d{8}$` in `create_display_name`). -/
def stripDateSuffix (sep : Char) (l : List Char) : List Char :=
  if 9 ≤ l.length then
    match l.drop (l.length - 9) with
    | c :: ds => if c = sep && ds.all Char.isDigit then l.take (l.length - 9) else l
    | [] => l
  else l

/-- Accumulator-based splitter behind `splitWS`; `acc` holds the current
word reversed. -/
def splitWSAux : List Char → List Char → List (List Char)
  | [], acc => if acc.isEmpty then [] else [acc.reverse]
  | c :: t, acc =>
    if c.isWhitespace then
      if acc.isEmpty then splitWSAux t [] else acc.reverse :: splitWSAux t []
    else splitWSAux t (c :: acc)

/-- Python `str.split()` with no argument: split on whitespace runs,
discarding empty pieces. -/
def splitWS (l : List Char) : List (List Char) := splitWSAux l []

/-- One word of `create_display_name`: uppercase overrides for
`gpt`/`llm`/`ai`, `GPT` + remainder for `gpt…` tokens, else capitalize. -/
def displayWord (w : List Char) : List Char :=
  let wl := lowerL w
  if wl = "gpt".toList || wl = "llm".toList || wl = "ai".toList then upperL w
  else if startsW wl "gpt" then 'G' :: 'P' :: 'T' :: w.drop 3
  else
    match w with
    | [] => []
    | c :: t => c.toUpper :: lowerL t

/-- `create_display_name` from the source. -/
def create_display_name (model_id : String) : String :=
  let l := model_id.toList
  let name := if l.contains '/' then (pySplitC '/' l).getLastD [] else l
  let name := stripDateSuffix '-' name
  let name := stripDateSuffix ':' name
  let name := name.map fun c => if c = '-' || c = '_' then ' ' else c
  (List.intercalate [' '] ((splitWS name).map displayWord)).asString

/-- Known image-model name markers shared by both adapters. -/
def imagePatterns : List String :=
  ["stable-diffusion", "sdxl", "flux", "dall-e", "midjourney",
   "playground-v2", "ssd-1b", "japanese-stable"]

/-- Any image-model marker occurs in the (lowercased) identifier. -/
def anyImagePattern (nameL : List Char) : Bool :=
  imagePatterns.any fun p => containsSub p.toList nameL

/-- `categorize_model` from the source: embedding, code, flagship-name,
then price bands, first match wins.  `context_window` is accepted but
unused, as in the source. -/
def categorize_model (model_id : String) (context_window : ℤ) (input_price : ℚ) :
    String :=
  let _ := context_window
  let ml := lowerL model_id.toList
  if containsSub "embed".toList ml then "embedding"
  else if ["codestral", "code-", "coder", "starcoder", "codellama"].any
      (fun p => containsSub p.toList ml) then "code"
  else if ["gpt-4o", "gpt-4-turbo", "gpt-4-32k", "claude-3-opus", "claude-3.5-sonnet",
      "claude-4", "gemini-1.5-pro", "gemini-ultra", "o1-preview", "o1-pro"].any
      (fun p => containsSub p.toList ml) then "flagship"
  else if 5 < input_price then "flagship"
  else if mkRat 1 2 < input_price then "standard"
  else "budget"

/-- Outcome of processing one feed item: a produced record, a skipped item
(explicit `continue` or caught exception), or an uncaught exception that
aborts the whole adapter run. -/
inductive PyR (α : Type) : Type where
  | ok : α → PyR α
  | skipI : PyR α
  | crash : PyR α
deriving DecidableEq

/-- Python `needle in x` for a string needle: element equality for lists,
substring for strings, key membership for dicts; `TypeError` (caught,
`none`) otherwise. -/
def pyInStr (needle : String) : JVal → Option Bool
  | .jarr l => some (l.any fun x => isStr x needle)
  | .jstr s => some (containsSub needle.toList s.toList)
  | .jobj fs => some (fs.any fun p => p.1 = needle)
  | _ => none

/-- Pydantic v2 lax validation of a `bool` field; `none` is a
`ValidationError` (a `ValueError`, caught by the adapters). -/
def pydBool : JVal → Option Bool
  | .jbool b => some b
  | .jnum q => if q = 0 then some false else if q = 1 then some true else none
  | .jstr s =>
    let t := lowerL s.toList
    if ["true", "t", "yes", "y", "on", "1"].any (fun w => t = w.toList) then some true
    else if ["false", "f", "no", "n", "off", "0"].any (fun w => t = w.toList) then
      some false
    else none
  | _ => none

/-- The price-conversion prefix of a Feed A item (`normalize_openrouter`
lines 245-247): `float(pricing.get("prompt", 0) or 0)` and the same for
`"completion"`.  `.crash` models the uncaught `AttributeError` when the
item or its `pricing` value is not a dict. -/
def orConvPrices : JVal → PyR (ℚ × ℚ)
  | .jobj fs =>
    match lookupD fs "pricing" (.jobj []) with
    | .jobj pfs =>
      match pyFloat (orDef (lookupD pfs "prompt" (.jnum 0)) (.jnum 0)),
          pyFloat (orDef (lookupD pfs "completion" (.jnum 0)) (.jnum 0)) with
      | some pc, some cc => .ok (pc, cc)
      | _, _ => .skipI
    | _ => .crash
  | _ => .crash

/-- One Feed A (OpenRouter) item, following the source's evaluation order:
empty-id skip, price conversion, context/output limits, architecture,
`model_type` from `output_modalities` / image name patterns / modality,
capabilities, record construction. -/
def normalizeORItem (fetched : String) (item : JVal) : PyR (String × ModelInfo) :=
  match item with
  | .jobj fs =>
    let idv := lookupD fs "id" (.jstr "")
    if truthy idv = false then .skipI
    else
      match orConvPrices item with
      | .crash => .crash
      | .skipI => .skipI
      | .ok (pc, cc) =>
        let inPM := qmul pc 1000000
        let outPM := qmul cc 1000000
        match pyInt (orDef (lookupD fs "context_length" (.jnum 0)) (.jnum 0)) with
        | none => .skipI
        | some cw =>
          match orDef (lookupD fs "top_provider" (.jobj [])) (.jobj []) with
          | .jobj tfs =>
            match pyInt (orDef (lookupD tfs "max_completion_tokens" (.jnum 0)) (.jnum 0)) with
            | none => .skipI
            | some maxOut =>
              match orDef (lookupD fs "architecture" (.jobj [])) (.jobj []) with
              | .jobj afs =>
                let modality := lookupD afs "modality" (.jstr "")
                let om := lookupD afs "output_modalities" (.jarr [])
                match idv with
                | .jstr idS =>
                  let nameL := lowerL idS.toList
                  match pyInStr "image" (orDef om (.jarr [])) with
                  | none => .skipI
                  | some inImg =>
                    match (if truthy modality then
                        (match modality with
                         | .jstr m => some (some (lowerL m.toList))
                         | _ => none)
                      else some none) with
                    | none => .crash
                    | some modalityL =>
                      let modelType :=
                        if inImg then "image_generation"
                        else if anyImagePattern nameL then "image"
                        else if (match modalityL with
                          | some ml => containsSub "text".toList ml
                          | none => false) then "chat"
                        else "chat"
                      let provider := extract_provider idS
                      match (match lookupD fs "name" (.jstr (create_display_name idS)) with
                        | .jstr dn => some dn
                        | _ => none) with
                      | none => .skipI
                      | some dn =>
                        .ok (idS,
                          { provider := provider
                            model_id := idS
                            display_name := dn
                            pricing :=
                              { input_per_million := pyRound4 inPM
                                output_per_million := pyRound4 outPM
                                currency := "USD" }
                            context_window := cw
                            max_output_tokens := maxOut
                            model_type := modelType
                            supports_vision :=
                              (match modalityL with
                               | some ml => containsSub "image".toList ml
                               | none => false)
                            supports_function_calling := true
                            supports_streaming := true
                            category := categorize_model idS cw inPM
                            sources :=
                              [("openrouter",
                                some { price_input := pyRound4 inPM
                                       price_output := pyRound4 outPM
                                       last_updated := fetched })]
                            affiliate_links := [] })
                | _ => .crash
              | _ => .crash
          | _ => .crash
  | _ => .crash

/-- The item loop of `normalize_openrouter`; `none` models an uncaught
exception aborting the run. -/
def orFold (fetched : String) : List JVal → List (String × ModelInfo) →
    Option (List (String × ModelInfo))
  | [], acc => some acc
  | item :: rest, acc =>
    match normalizeORItem fetched item with
    | .ok (k, mi) => orFold fetched rest (insertA k mi acc)
    | .skipI => orFold fetched rest acc
    | .crash => none

/-- `normalize_openrouter` from the source: a non-list `data` yields an
empty map with a warning; items are processed in order. -/
def normalize_openrouter (raw : JVal) (fetched : String) :
    Option (List (String × ModelInfo)) :=
  match raw with
  | .jobj fs =>
    match lookupD fs "data" (.jarr []) with
    | .jarr items => orFold fetched items []
    | _ => some []
  | _ => none

/-- The price-conversion prefix of a Feed B entry (`normalize_litellm`
lines 354-355) on the entry's fields. -/
def llConvPrices (md : List (String × JVal)) : Option (ℚ × ℚ) :=
  match pyFloat (orDef (lookupD md "input_cost_per_token" (.jnum 0)) (.jnum 0)),
      pyFloat (orDef (lookupD md "output_cost_per_token" (.jnum 0)) (.jnum 0)) with
  | some a, some b => some (a, b)
  | _, _ => none

/-- The same conversion on the raw entry value (non-dict entries are
skipped by the adapter before conversion, hence `none`). -/
def llConvPricesV : JVal → Option (ℚ × ℚ)
  | .jobj md => llConvPrices md
  | _ => none

/-- The `model_type` chain of `normalize_litellm` (lines 390-407): image
and embedding name patterns override the declared `mode`, recognized
modes map through a fixed table, an unrecognized truthy mode passes
through verbatim, and a falsy mode defaults to `"chat"`. -/
def llModelType (isImg isEmb : Bool) (mode : JVal) : JVal :=
  if isImg then .jstr "image"
  else if isEmb then .jstr "embedding"
  else if isStr mode "chat" || isStr mode "completion" || isStr mode "responses" then
    .jstr "chat"
  else if isStr mode "image_generation" || isStr mode "image_edit" then .jstr "image"
  else if isStr mode "embedding" then .jstr "embedding"
  else if isStr mode "audio_transcription" || isStr mode "audio_speech" then
    .jstr "audio"
  else if isStr mode "video_generation" then .jstr "video"
  else if isStr mode "rerank" then .jstr "rerank"
  else if truthy mode then mode
  else .jstr "chat"

/-- One Feed B (LiteLLM) entry, following the source's evaluation order:
non-dict skip, `sample_spec` skip, price conversion, zero-price
exclusion, limits, provider, model type, capabilities, construction. -/
def normalizeLLItem (fetched k : String) (mdv : JVal) : PyR ModelInfo :=
  match mdv with
  | .jobj md =>
    if k.startsWith "sample_spec" then .skipI
    else
      match llConvPrices md with
      | none => .skipI
      | some (ic, oc) =>
        let inPM := qmul ic 1000000
        let outPM := qmul oc 1000000
        if inPM = 0 ∧ outPM = 0 then .skipI
        else
          match pyInt (orDef (lookupD md "max_input_tokens" (.jnum 0)) (.jnum 0)) with
          | none => .skipI
          | some maxIn =>
            match pyInt (orDef (lookupD md "max_tokens" (.jnum 0))
                (orDef (lookupD md "max_output_tokens" (.jnum 0)) (.jnum 0))) with
            | none => .skipI
            | some maxOut =>
              let providerV :=
                orDef (lookupD md "litellm_provider" (.jstr ""))
                  (.jstr (extract_provider k))
              let nameL := lowerL k.toList
              let isImg := anyImagePattern nameL
              let isEmb := containsSub "embedding".toList nameL ||
                containsSub "embed".toList nameL
              let mode := lookupD md "mode" (.jstr "chat")
              let modelTypeV := llModelType isImg isEmb mode
              let svV := orDef (lookupD md "supports_vision" (.jbool false)) (.jbool false)
              let sfV := orDef (lookupD md "supports_function_calling" (.jbool false))
                (.jbool false)
              match (if truthy providerV then
                  (match providerV with
                   | .jstr p => PyR.ok (lowerL p.toList).asString
                   | _ => PyR.crash)
                else PyR.ok (extract_provider k)) with
              | .crash => .crash
              | .skipI => .skipI
              | .ok prov =>
                match modelTypeV with
                | .jstr mt =>
                  match pydBool svV, pydBool sfV with
                  | some sv, some sf =>
                    .ok
                      { provider := prov
                        model_id := k
                        display_name := create_display_name k
                        pricing :=
                          { input_per_million := pyRound4 inPM
                            output_per_million := pyRound4 outPM
                            currency := "USD" }
                        context_window := maxIn
                        max_output_tokens := maxOut
                        model_type := mt
                        supports_vision := sv
                        supports_function_calling := sf
                        supports_streaming := true
                        category := categorize_model k maxIn inPM
                        sources :=
                          [("litellm",
                            some { price_input := pyRound4 inPM
                                   price_output := pyRound4 outPM
                                   last_updated := fetched })]
                        affiliate_links := [] }
                  | _, _ => .skipI
                | _ => .skipI
  | _ => .skipI

/-- The entry loop of `normalize_litellm`. -/
def llFold (fetched : String) : List (String × JVal) → List (String × ModelInfo) →
    Option (List (String × ModelInfo))
  | [], acc => some acc
  | (k, mdv) :: rest, acc =>
    match normalizeLLItem fetched k mdv with
    | .ok mi => llFold fetched rest (insertA k mi acc)
    | .skipI => llFold fetched rest acc
    | .crash => none

/-- `normalize_litellm` from the source: a non-dict `data` yields an
empty map with a warning. -/
def normalize_litellm (raw : JVal) (fetched : String) :
    Option (List (String × ModelInfo)) :=
  match raw with
  | .jobj fs =>
    match lookupD fs "data" (.jobj []) with
    | .jobj entries => llFold fetched entries []
    | _ => some []
  | _ => none

/-- Python `model.sources.get(k)`: absent key and a stored `None` both
give `none`. -/
def pyGetSource (m : ModelInfo) (k : String) : Option SourceInfo :=
  match lookupA k m.sources with
  | some v => v
  | none => none

/-- `merge_sources` from the source: start from the OpenRouter map, then
for each LiteLLM record either graft its `"litellm"` observation onto
the existing record or insert the record as-is. -/
def merge_sources (openrouterModels litellmModels : List (String × ModelInfo)) :
    List (String × ModelInfo) :=
  litellmModels.foldl
    (fun acc p =>
      match lookupA p.1 acc with
      | some existing =>
        insertA p.1
          { existing with
            sources := insertA "litellm" (pyGetSource p.2 "litellm") existing.sources }
          acc
      | none => insertA p.1 p.2 acc)
    openrouterModels

/-- Increment the histogram count of a category key (`categories.get(cat, 0) + 1`). -/
def bumpCount (k : String) : List (String × ℕ) → List (String × ℕ)
  | [] => [(k, 1)]
  | (k', n) :: t => if k' = k then (k', n + 1) :: t else (k', n) :: bumpCount k t

/-- The category histogram of `main` (lines 582-585). -/
def countCategories (models : List (String × ModelInfo)) : List (String × ℕ) :=
  models.foldl (fun acc p => bumpCount p.2.category acc) []

/-- Sum of the histogram counts. -/
def sumVals (l : List (String × ℕ)) : ℕ := (l.map Prod.snd).sum

/-- The metadata computed by the assembler in `main`: `total_models` and
the per-category histogram. -/
def buildMetadata (models : List (String × ModelInfo)) : ℕ × List (String × ℕ) :=
  (models.length, countCategories models)

/-- Keys of a map are pairwise distinct. -/
def keysNodup {α : Type} (l : List (String × α)) : Prop :=
  (l.map Prod.fst).Nodup

instance {α : Type} (l : List (String × α)) : Decidable (keysNodup l) := by
  unfold keysNodup; infer_instance

/-- Lookup through an optional adapter output. -/
def getModel (o : Option (List (String × ModelInfo))) (k : String) : Option ModelInfo :=
  o.bind (lookupA k)

/-- The `data` list of a Feed A document, as the adapter extracts it. -/
def orData : JVal → List JVal
  | .jobj fs =>
    match lookupD fs "data" (.jarr []) with
    | .jarr items => items
    | _ => []
  | _ => []

/-- The `data` entries of a Feed B document, as the adapter extracts them. -/
def llData : JVal → List (String × JVal)
  | .jobj fs =>
    match lookupD fs "data" (.jobj []) with
    | .jobj entries => entries
    | _ => []
  | _ => []

/-- The declared `mode` of a Feed B entry (default `"chat"`). -/
def llModeOf : JVal → JVal
  | .jobj md => lookupD md "mode" (.jstr "chat")
  | _ => .jstr "chat"

/-- The spec's closed `model_type` vocabulary. -/
def modelTypeVocab : List String :=
  ["chat", "image", "image_generation", "embedding", "audio", "video", "rerank"]

/-- A declared mode that the fixed table recognizes, or a falsy one
(absent / empty): exactly the entries for which the claim's closed
vocabulary is guaranteed. -/
def modeRecognized (m : JVal) : Bool :=
  !truthy m ||
    (match m with
     | .jstr s =>
       ["chat", "completion", "responses", "image_generation", "image_edit",
        "embedding", "audio_transcription", "audio_speech", "video_generation",
        "rerank"].contains s
     | _ => false)

/-- One step of the merge loop. -/
def mergeStep (acc : List (String × ModelInfo)) (p : String × ModelInfo) :
    List (String × ModelInfo) :=
  match lookupA p.1 acc with
  | some existing =>
    insertA p.1
      { existing with
        sources := insertA "litellm" (pyGetSource p.2 "litellm") existing.sources }
      acc
  | none => insertA p.1 p.2 acc

/-- The grafted record for a model present in both feeds. -/
def mergePatch (a b : ModelInfo) : ModelInfo :=
  { a with sources := insertA "litellm" (pyGetSource b "litellm") a.sources }

def c1RecP : ModelInfo :=
  { provider := "openai", model_id := "p", display_name := "P"
    pricing := { input_per_million := 5, output_per_million := 15, currency := "USD" }
    context_window := 0, max_output_tokens := 0, model_type := "chat"
    supports_vision := true, supports_function_calling := true
    supports_streaming := true, category := "budget"
    sources := [("openrouter",
      some { price_input := 5, price_output := 15, last_updated := "t1" })]
    affiliate_links := [] }

def c1RecQA : ModelInfo :=
  { c1RecP with
    model_id := "q"
    supports_vision := true }

def c1RecQB : ModelInfo :=
  { c1RecP with
    model_id := "q"
    supports_vision := false
    sources := [("litellm",
      some { price_input := 7, price_output := 21, last_updated := "t2" })] }

def c1RecR : ModelInfo :=
  { c1RecP with
    model_id := "r"
    sources := [("litellm",
      some { price_input := 1, price_output := 2, last_updated := "t2" })] }

def c1MapA : List (String × ModelInfo) := [("p", c1RecP), ("q", c1RecQA)]

def c1MapB : List (String × ModelInfo) := [("q", c1RecQB), ("r", c1RecR)]

/-- Feed A document with a free-tier model priced `"0"`/`"0"`. -/
def orFreeDoc : JVal := .jobj [("data", .jarr [
  .jobj [("id", .jstr "free-model"),
         ("pricing", .jobj [("prompt", .jstr "0"), ("completion", .jstr "0")])]])]

/-- Feed B document whose only entry has both per-token costs equal to 0. -/
def llZeroDoc : JVal := .jobj [("data", .jobj [
  ("zm", .jobj [("input_cost_per_token", .jnum 0), ("output_cost_per_token", .jnum 0)])])]

/-- The `"zm"` entry of `llZeroDoc`. -/
def llZeroEntry : JVal :=
  .jobj [("input_cost_per_token", .jnum 0), ("output_cost_per_token", .jnum 0)]

/-- Feed A document whose model declares a negative per-token price. -/
def orNegDoc : JVal := .jobj [("data", .jarr [
  .jobj [("id", .jstr "m"), ("pricing", .jobj [("prompt", .jstr "-1")])]])]

/-- Feed A document with one item and no pricing object (prices default to 0). -/
def orWitDoc : JVal := .jobj [("data", .jarr [.jobj [("id", .jstr "w")]])]

/-- Feed B document whose entry declares the unrecognized mode `"banana"`. -/
def llBanDoc : JVal := .jobj [("data", .jobj [
  ("foo-model", .jobj [("input_cost_per_token", .jnum (mkRat 1 1000)),
                       ("mode", .jstr "banana")])])]

/-- Feed B document with a recognized `"embedding"` mode. -/
def llEmbDoc : JVal := .jobj [("data", .jobj [
  ("vec-model", .jobj [("input_cost_per_token", .jnum (mkRat 1 10000000)),
                       ("mode", .jstr "embedding")])])]

/-- Feed A document with an identifier containing `"embed"`. -/
def orEmbDoc : JVal := .jobj [("data", .jarr [
  .jobj [("id", .jstr "text-embed-1"),
         ("pricing", .jobj [("prompt", .jstr "0.00001")])]])]

/-- Feed A document with exact per-token string prices for unit conversion. -/
def orUnitDoc : JVal := .jobj [("data", .jarr [
  .jobj [("id", .jstr "m1"),
         ("pricing", .jobj [("prompt", .jstr "0.000005"),
                            ("completion", .jstr "0.000015")])]])]

/-- Feed A document with a missing pricing object and an explicit-null price. -/
def orNullDoc : JVal := .jobj [("data", .jarr [
  .jobj [("id", .jstr "w1")],
  .jobj [("id", .jstr "w2"), ("pricing", .jobj [("prompt", .jnull)])]])]

/-- Feed A document with a non-numeric price and a well-formed neighbour. -/
def orMixDoc : JVal := .jobj [("data", .jarr [
  .jobj [("id", .jstr "bad"), ("pricing", .jobj [("prompt", .jstr "abc")])],
  .jobj [("id", .jstr "good"),
         ("pricing", .jobj [("prompt", .jstr "0.000001")])]])]

/-- Feed B document with a non-numeric price and a well-formed neighbour. -/
def llMixDoc : JVal := .jobj [("data", .jobj [
  ("badm", .jobj [("input_cost_per_token", .jstr "xyz")]),
  ("goodm", .jobj [("input_cost_per_token", .jstr "0.000002")])])]

/-- The bad-priced entry of `llMixDoc`. -/
def llMixBadEntry : JVal := .jobj [("input_cost_per_token", .jstr "xyz")]

/-- Feed A document exercising rounding to four decimals. -/
def orRoundDoc : JVal := .jobj [("data", .jarr [
  .jobj [("id", .jstr "r1"),
         ("pricing", .jobj [("prompt", .jstr "0.00000123456")])]])]

theorem lookupA_insertA {α : Type} (k k' : String) (v : α) (l : List (String × α)) :
    lookupA k (insertA k' v l) = if k' = k then some v else lookupA k l := by
  induction l with
  | nil => simp [insertA, lookupA]
  | cons p t ih =>
    obtain ⟨a, b⟩ := p
    by_cases hak : a = k'
    · subst hak
      by_cases h : a = k
      · subst h
        simp [insertA, lookupA]
      · simp [insertA, lookupA, h]
    · by_cases h : a = k
      · subst h
        have hne : k' ≠ a := fun he => hak he.symm
        simp [insertA, lookupA, hak, hne]
      · simp [insertA, lookupA, hak, h, ih]

theorem mem_keys_insertA {α : Type} (a k : String) (v : α) (l : List (String × α))
    (h : a ∈ (insertA k v l).map Prod.fst) : a = k ∨ a ∈ l.map Prod.fst := by
  induction l with
  | nil => simpa [insertA] using h
  | cons p t ih =>
    obtain ⟨b, c⟩ := p
    simp only [insertA] at h
    split at h
    · simp only [List.map_cons, List.mem_cons] at h
      rcases h with h | h
      · exact Or.inl h
      · exact Or.inr (by simp [h])
    · simp only [List.map_cons, List.mem_cons] at h
      rcases h with h | h
      · exact Or.inr (by simp [h])
      · rcases ih h with h' | h'
        · exact Or.inl h'
        · exact Or.inr (by simp [h'])

theorem keysNodup_insertA {α : Type} (k : String) (v : α) (l : List (String × α))
    (h : keysNodup l) : keysNodup (insertA k v l) := by
  induction l with
  | nil => simp [insertA, keysNodup]
  | cons p t ih =>
    obtain ⟨b, c⟩ := p
    unfold keysNodup at h ⊢
    simp only [List.map_cons, List.nodup_cons] at h
    obtain ⟨hb, ht⟩ := h
    simp only [insertA]
    split
    · rename_i hbk
      subst hbk
      simp only [List.map_cons, List.nodup_cons]
      exact ⟨hb, ht⟩
    · rename_i hbk
      simp only [List.map_cons, List.nodup_cons]
      refine ⟨fun hmem => ?_, ih ht⟩
      rcases mem_keys_insertA b k v t hmem with h' | h'
      · exact hbk h'
      · exact hb h'

theorem lookupA_eq_none_iff {α : Type} (k : String) (l : List (String × α)) :
    lookupA k l = none ↔ k ∉ l.map Prod.fst := by
  induction l with
  | nil => simp [lookupA]
  | cons p t ih =>
    obtain ⟨a, b⟩ := p
    by_cases h : a = k
    · subst h; simp [lookupA]
    · simp only [lookupA, if_neg h, List.map_cons, List.mem_cons, ih]
      constructor
      · intro hn hor
        rcases hor with h' | h'
        · exact h h'.symm
        · exact hn h'
      · intro hn h'
        exact hn (Or.inr h')

theorem lookupA_of_mem_nodup {α : Type} {k : String} {v : α} {l : List (String × α)}
    (hl : keysNodup l) (h : (k, v) ∈ l) : lookupA k l = some v := by
  induction l with
  | nil => simp at h
  | cons p t ih =>
    obtain ⟨a, b⟩ := p
    unfold keysNodup at hl
    simp only [List.map_cons, List.nodup_cons] at hl
    obtain ⟨ha, ht⟩ := hl
    rcases List.mem_cons.mp h with h' | h'
    · injection h' with h1 h2
      subst h1; subst h2
      simp [lookupA]
    · have hak : a ≠ k := by
        intro he; subst he
        exact ha (by simpa using List.mem_map_of_mem Prod.fst h')
      simp [lookupA, hak, ih ht h']

theorem merge_sources_eq_foldl (A B : List (String × ModelInfo)) :
    merge_sources A B = B.foldl mergeStep A := rfl

theorem mergeFold_lookup (B : List (String × ModelInfo)) (hB : keysNodup B)
    (acc : List (String × ModelInfo)) (k : String) :
    lookupA k (B.foldl mergeStep acc) =
      match lookupA k B with
      | some b =>
        match lookupA k acc with
        | some a => some (mergePatch a b)
        | none => some b
      | none => lookupA k acc := by
  induction B generalizing acc with
  | nil => simp [lookupA]
  | cons p rest ih =>
    obtain ⟨k', b'⟩ := p
    unfold keysNodup at hB
    simp only [List.map_cons, List.nodup_cons] at hB
    obtain ⟨hk', hrest⟩ := hB
    simp only [List.foldl_cons]
    rw [ih hrest]
    by_cases hkk : k' = k
    · subst hkk
      have hnone : lookupA k' rest = none :=
        (lookupA_eq_none_iff k' rest).mpr hk'
      rw [hnone]
      simp only [lookupA, if_pos rfl, if_true]
      unfold mergeStep
      simp only
      cases hacc : lookupA k' acc with
      | some a =>
        simp [lookupA_insertA, mergePatch]
      | none =>
        simp [lookupA_insertA]
    · simp only [lookupA, if_neg hkk]
      have hstep : lookupA k (mergeStep acc (k', b')) = lookupA k acc := by
        unfold mergeStep
        cases hacc : lookupA k' acc with
        | some a => simp [lookupA_insertA, hkk]
        | none => simp [lookupA_insertA, hkk]
      rw [hstep]

theorem mergeFold_nodup (B : List (String × ModelInfo))
    (acc : List (String × ModelInfo)) (hacc : keysNodup acc) :
    keysNodup (B.foldl mergeStep acc) := by
  induction B generalizing acc with
  | nil => simpa
  | cons p rest ih =>
    simp only [List.foldl_cons]
    apply ih
    unfold mergeStep
    cases lookupA p.1 acc with
    | some a => exact keysNodup_insertA _ _ _ hacc
    | none => exact keysNodup_insertA _ _ _ hacc

theorem sumVals_bumpCount (k : String) (l : List (String × ℕ)) :
    sumVals (bumpCount k l) = sumVals l + 1 := by
  induction l with
  | nil => simp [bumpCount, sumVals]
  | cons p t ih =>
    obtain ⟨a, n⟩ := p
    by_cases h : a = k
    · subst h
      simp only [bumpCount, if_pos rfl]
      simp [sumVals]
      omega
    · simp only [bumpCount, if_neg h]
      simp only [sumVals, List.map_cons, List.sum_cons] at ih ⊢
      omega

theorem sumVals_countFold (models : List (String × ModelInfo))
    (acc : List (String × ℕ)) :
    sumVals (models.foldl (fun a p => bumpCount p.2.category a) acc) =
      sumVals acc + models.length := by
  induction models generalizing acc with
  | nil => simp
  | cons p t ih =>
    simp only [List.foldl_cons, List.length_cons]
    rw [ih, sumVals_bumpCount]
    omega

theorem sumVals_countCategories (models : List (String × ModelInfo)) :
    sumVals (countCategories models) = models.length := by
  unfold countCategories
  rw [sumVals_countFold]
  simp [sumVals]

theorem orItem_model_type {fetched : String} {item : JVal} {k : String} {mi : ModelInfo}
    (h : normalizeORItem fetched item = .ok (k, mi)) :
    mi.model_type = "chat" ∨ mi.model_type = "image" ∨
      mi.model_type = "image_generation" := by
  unfold normalizeORItem at h
  repeat split at h <;> try simp_all
  all_goals obtain ⟨h1, h2⟩ := h
  all_goals subst h1
  all_goals subst h2
  all_goals ((try split) <;> simp)

theorem orItem_conv_ok {fetched : String} {item : JVal} {k : String} {mi : ModelInfo}
    (h : normalizeORItem fetched item = .ok (k, mi)) :
    ∃ p, orConvPrices item = .ok p := by
  unfold normalizeORItem at h
  repeat split at h <;> try simp_all

theorem orItem_prices {fetched : String} {item : JVal} {k : String} {mi : ModelInfo}
    {pc cc : ℚ} (h : normalizeORItem fetched item = .ok (k, mi))
    (hconv : orConvPrices item = .ok (pc, cc)) :
    mi.pricing.input_per_million = pyRound4 (qmul pc 1000000) ∧
      mi.pricing.output_per_million = pyRound4 (qmul cc 1000000) := by
  unfold normalizeORItem at h
  repeat split at h <;> try simp_all
  all_goals obtain ⟨h1, h2⟩ := h
  all_goals subst h1
  all_goals subst h2
  all_goals simp_all

theorem llItem_conv_ok {fetched k : String} {mdv : JVal} {mi : ModelInfo}
    (h : normalizeLLItem fetched k mdv = .ok mi) :
    ∃ p, llConvPricesV mdv = some p := by
  unfold normalizeLLItem at h
  repeat split at h <;> try simp_all
  all_goals rename llConvPrices _ = some _ => hconv
  all_goals exact Exists.intro _ (Exists.intro _ hconv)

theorem llItem_prices {fetched k : String} {mdv : JVal} {mi : ModelInfo} {ic oc : ℚ}
    (h : normalizeLLItem fetched k mdv = .ok mi)
    (hconv : llConvPricesV mdv = some (ic, oc)) :
    mi.pricing.input_per_million = pyRound4 (qmul ic 1000000) ∧
      mi.pricing.output_per_million = pyRound4 (qmul oc 1000000) := by
  unfold normalizeLLItem at h
  repeat split at h <;> try simp_all [llConvPricesV]
  all_goals subst h
  all_goals simp_all [llConvPricesV]

theorem llItem_model_type {fetched k : String} {mdv : JVal} {mi : ModelInfo}
    (h : normalizeLLItem fetched k mdv = .ok mi) :
    llModelType (anyImagePattern (lowerL k.toList))
      (containsSub "embedding".toList (lowerL k.toList) ||
        containsSub "embed".toList (lowerL k.toList))
      (llModeOf mdv) = .jstr mi.model_type := by
  unfold normalizeLLItem at h
  repeat split at h <;> try simp_all
  all_goals subst h
  all_goals simp_all [llModeOf]

theorem llItem_skip_of_zero {fetched k : String} {mdv : JVal} {ic oc : ℚ}
    (hconv : llConvPricesV mdv = some (ic, oc))
    (hi : qmul ic 1000000 = 0) (ho : qmul oc 1000000 = 0) :
    ∀ mi, normalizeLLItem fetched k mdv ≠ .ok mi := by
  intro mi h
  unfold normalizeLLItem at h
  repeat split at h <;> simp_all [llConvPricesV]

theorem orFold_invariant (P : ModelInfo → Prop) (f : String) :
    ∀ (items : List JVal) (acc out : List (String × ModelInfo)),
      (∀ item ∈ items, ∀ k mi, normalizeORItem f item = .ok (k, mi) → P mi) →
      (∀ k mi, lookupA k acc = some mi → P mi) →
      orFold f items acc = some out →
      ∀ k mi, lookupA k out = some mi → P mi := by
  intro items
  induction items with
  | nil =>
    intro acc out _ hacc hout
    unfold orFold at hout
    injection hout with hout
    subst hout
    exact hacc
  | cons item rest ih =>
    intro acc out hitems hacc hout
    unfold orFold at hout
    cases e : normalizeORItem f item with
    | ok p =>
      obtain ⟨k0, mi0⟩ := p
      rw [e] at hout
      refine ih (insertA k0 mi0 acc) out (fun it hit => hitems it (List.mem_cons_of_mem _ hit)) ?_ hout
      intro k mi hl
      rw [lookupA_insertA] at hl
      by_cases hk : k0 = k
      · rw [if_pos hk] at hl
        injection hl with hl
        exact hl ▸ hitems item (List.mem_cons_self _ _) k0 mi0 e
      · rw [if_neg hk] at hl
        exact hacc k mi hl
    | skipI =>
      rw [e] at hout
      exact ih acc out (fun it hit => hitems it (List.mem_cons_of_mem _ hit)) hacc hout
    | crash =>
      rw [e] at hout
      cases hout

theorem llFold_invariant (P : ModelInfo → Prop) (f : String) :
    ∀ (entries : List (String × JVal)) (acc out : List (String × ModelInfo)),
      (∀ p ∈ entries, ∀ mi, normalizeLLItem f p.1 p.2 = .ok mi → P mi) →
      (∀ k mi, lookupA k acc = some mi → P mi) →
      llFold f entries acc = some out →
      ∀ k mi, lookupA k out = some mi → P mi := by
  intro entries
  induction entries with
  | nil =>
    intro acc out _ hacc hout
    unfold llFold at hout
    injection hout with hout
    subst hout
    exact hacc
  | cons p rest ih =>
    obtain ⟨k0, mdv⟩ := p
    intro acc out hitems hacc hout
    unfold llFold at hout
    cases e : normalizeLLItem f k0 mdv with
    | ok mi0 =>
      rw [e] at hout
      refine ih (insertA k0 mi0 acc) out (fun it hit => hitems it (List.mem_cons_of_mem _ hit)) ?_ hout
      intro k mi hl
      rw [lookupA_insertA] at hl
      by_cases hk : k0 = k
      · rw [if_pos hk] at hl
        injection hl with hl
        exact hl ▸ hitems (k0, mdv) (List.mem_cons_self _ _) mi0 e
      · rw [if_neg hk] at hl
        exact hacc k mi hl
    | skipI =>
      rw [e] at hout
      exact ih acc out (fun it hit => hitems it (List.mem_cons_of_mem _ hit)) hacc hout
    | crash =>
      rw [e] at hout
      cases hout

theorem llFold_lookup_none (f k : String) :
    ∀ (entries : List (String × JVal)) (acc out : List (String × ModelInfo)),
      (∀ mdv, (k, mdv) ∈ entries → ∀ mi, normalizeLLItem f k mdv ≠ .ok mi) →
      lookupA k acc = none →
      llFold f entries acc = some out →
      lookupA k out = none := by
  intro entries
  induction entries with
  | nil =>
    intro acc out _ hacc hout
    unfold llFold at hout
    injection hout with hout
    subst hout
    exact hacc
  | cons p rest ih =>
    obtain ⟨k0, mdv⟩ := p
    intro acc out hk hacc hout
    unfold llFold at hout
    cases e : normalizeLLItem f k0 mdv with
    | ok mi0 =>
      rw [e] at hout
      refine ih (insertA k0 mi0 acc) out (fun m hm => hk m (List.mem_cons_of_mem _ hm)) ?_ hout
      rw [lookupA_insertA]
      by_cases h0 : k0 = k
      · subst h0
        exact absurd e (hk mdv (List.mem_cons_self _ _) mi0)
      · rw [if_neg h0]
        exact hacc
    | skipI =>
      rw [e] at hout
      exact ih acc out (fun m hm => hk m (List.mem_cons_of_mem _ hm)) hacc hout
    | crash =>
      rw [e] at hout
      cases hout

theorem qmul_eq (a b : ℚ) : qmul a b = a * b := (Rat.mul_eq_mkRat a b).symm

theorem roundHalfEven_nonneg {q : ℚ} (h : 0 ≤ q) : 0 ≤ roundHalfEven q := by
  unfold roundHalfEven
  have hfl : 0 ≤ ⌊q⌋ := Int.floor_nonneg.mpr h
  simp only
  split
  · exact hfl
  · split
    · omega
    · split <;> omega

theorem mkRat_den10000_nonneg {n : ℤ} (h : 0 ≤ n) : 0 ≤ mkRat n 10000 := by
  rw [Rat.mkRat_eq_divInt, Rat.divInt_eq_div]
  positivity

theorem pyRound4_nonneg {q : ℚ} (h : 0 ≤ q) : 0 ≤ pyRound4 q := by
  unfold pyRound4
  refine mkRat_den10000_nonneg (roundHalfEven_nonneg ?_)
  rw [qmul_eq]
  positivity

theorem pySplitC_ne_nil (sep : Char) (l : List Char) : pySplitC sep l ≠ [] := by
  induction l with
  | nil => simp [pySplitC]
  | cons c t ih =>
    unfold pySplitC
    split
    · simp
    · cases h : pySplitC sep t <;> simp

theorem pySplitC_headD (sep : Char) (l : List Char) :
    (pySplitC sep l).headD [] = l.takeWhile (fun c => c != sep) := by
  induction l with
  | nil => simp [pySplitC]
  | cons c t ih =>
    unfold pySplitC
    by_cases h : c = sep
    · subst h
      simp [List.takeWhile]
    · rw [if_neg h]
      cases he : pySplitC sep t with
      | nil => exact absurd he (pySplitC_ne_nil sep t)
      | cons p ps =>
        rw [he] at ih
        simp only [List.headD] at ih ⊢
        have hb : (c != sep) = true := by simp [h]
        simp [List.takeWhile, hb, ih]

theorem isPrefixOf_map (f : Char → Char) {n h : List Char}
    (hp : n.isPrefixOf h = true) : (n.map f).isPrefixOf (h.map f) = true := by
  rw [List.isPrefixOf_iff_prefix] at hp ⊢
  obtain ⟨t, ht⟩ := hp
  exact ⟨t.map f, by rw [← List.map_append, ht]⟩

theorem containsSub_map (f : Char → Char) {n h : List Char}
    (hc : containsSub n h = true) : containsSub (n.map f) (h.map f) = true := by
  induction h with
  | nil =>
    unfold containsSub at hc ⊢
    simp_all
  | cons c t ih =>
    unfold containsSub at hc
    rcases Bool.or_eq_true_iff.mp hc with hp | hrest
    · unfold containsSub
      simp only [List.map_cons]
      exact Bool.or_eq_true_iff.mpr (Or.inl (by simpa using isPrefixOf_map f hp))
    · unfold containsSub
      simp only [List.map_cons]
      exact Bool.or_eq_true_iff.mpr (Or.inr (ih hrest))

theorem llModelType_vocab (i e : Bool) (m : JVal) (hm : modeRecognized m = true)
    {s : String} (h : llModelType i e m = .jstr s) : s ∈ modelTypeVocab := by
  unfold llModelType at h
  by_cases hi : i = true
  · rw [if_pos hi] at h
    injection h with h
    subst h
    decide
  · rw [if_neg hi] at h
    by_cases he : e = true
    · rw [if_pos he] at h
      injection h with h
      subst h
      decide
    · rw [if_neg he] at h
      unfold modeRecognized at hm
      cases m with
      | jstr t =>
        simp only [isStr] at h
        simp only [truthy, Bool.or_eq_true] at hm
        rcases hm with hm | hm
        · have ht : t = "" := by simpa using hm
          subst ht
          simp only [truthy] at h
          simp at h
          subst h
          decide
        · have ht : t ∈ ["chat", "completion", "responses", "image_generation",
              "image_edit", "embedding", "audio_transcription", "audio_speech",
              "video_generation", "rerank"] := by simpa using hm
          fin_cases ht <;> simp_all <;> subst h <;> decide
      | jnull =>
        simp only [isStr, truthy] at h
        simp at h
        subst h
        decide
      | jbool b =>
        simp only [truthy, Bool.or_eq_true] at hm
        rcases hm with hm | hm
        · have hb : b = false := by simpa using hm
          subst hb
          simp only [isStr, truthy] at h
          simp at h
          subst h
          decide
        · simp [isStr] at hm
      | jnum q =>
        simp only [truthy, Bool.or_eq_true] at hm
        rcases hm with hm | hm
        · have hq : q = 0 := by simpa using hm
          subst hq
          simp only [isStr, truthy] at h
          simp at h
          subst h
          decide
        · simp [isStr] at hm
      | jarr l =>
        simp only [truthy, Bool.or_eq_true] at hm
        rcases hm with hm | hm
        · have hl : l = [] := by simpa using hm
          subst hl
          simp only [isStr, truthy] at h
          simp at h
          subst h
          decide
        · simp [isStr] at hm
      | jobj l =>
        simp only [truthy, Bool.or_eq_true] at hm
        rcases hm with hm | hm
        · have hl : l = [] := by simpa using hm
          subst hl
          simp only [isStr, truthy] at h
          simp at h
          subst h
          decide
        · simp [isStr] at hm

/-- C5: `extract_provider` is total (a Lean function of type `String → String`);
when the identifier contains `/` it returns the lowercased segment before the
first `/`; otherwise ordered case-insensitive prefix rules apply with
`"unknown"` as fallback; in particular `"openai/gpt-4o" ↦ "openai"`,
`"gpt-4" ↦ "openai"`, `"mystery-model" ↦ "unknown"`. -/
theorem provider_inference_spec :
    (∀ s : String, s.toList.contains '/' = true →
      extract_provider s =
        (lowerL (s.toList.takeWhile (fun c => c != '/'))).asString) ∧
    extract_provider "openai/gpt-4o" = "openai" ∧
    extract_provider "gpt-4" = "openai" ∧
    extract_provider "mystery-model" = "unknown" := by
  refine ⟨?_, by decide, by decide, by decide⟩
  intro s h
  unfold extract_provider
  simp only [h, if_true, pySplitC_headD]

theorem provider_inference_spec_witness :
    ("a/B".toList.contains '/' = true) ∧
    extract_provider "a/B" =
      (lowerL ("a/B".toList.takeWhile (fun c => c != '/'))).asString :=
  ⟨by decide, provider_inference_spec.1 "a/B" (by decide)⟩

/-- C6: `create_display_name` is a pure total function (a Lean function of
type `String → String`) implementing strip-namespace, strip date suffix,
dash/underscore to spaces, title case with `gpt`/`llm`/`ai` overrides; the
empty string maps to itself and
`"anthropic/claude-3-opus-20240229" ↦ "Claude 3 Opus"`. -/
theorem display_name_spec :
    create_display_name "" = "" ∧
    create_display_name "anthropic/claude-3-opus-20240229" = "Claude 3 Opus" ∧
    create_display_name "llm_ai-gpt4" = "LLM AI GPT4" ∧
    create_display_name "openai/gpt-4o:20240513" = "GPT 4o" ∧
    create_display_name "meta/llama-3-8B" = "Llama 3 8b" :=
  ⟨by decide, by decide, by decide, by decide, by decide⟩

/-- C7: every identifier containing the substring `"embed"` is categorized
`"embedding"` by `categorize_model`, for every context window and every
input price (the embedding rule outranks the code, flagship-name and
price-band rules). -/
theorem embedding_marker_priority :
    ∀ (id : String) (cw : ℤ) (price : ℚ),
      containsSub "embed".toList id.toList = true →
      categorize_model id cw price = "embedding" := by
  intro id cw price h
  have hl : containsSub "embed".toList (lowerL id.toList) = true := by
    have hmap := containsSub_map Char.toLower h
    have : ("embed".toList.map Char.toLower) = "embed".toList := by decide
    rw [this] at hmap
    exact hmap
  unfold categorize_model
  simp only [hl, if_true]

theorem embedding_marker_priority_witness :
    (containsSub "embed".toList "text-embedding-3".toList = true) ∧
    categorize_model "text-embedding-3" 0 10 = "embedding" :=
  ⟨by decide, embedding_marker_priority "text-embedding-3" 0 10 (by decide)⟩

/-- C9: for every model map handed to the assembler, the per-category counts
in the metadata sum to `total_models`, which equals the number of entries in
the models mapping. -/
theorem category_count_invariant :
    ∀ models : List (String × ModelInfo),
      sumVals (buildMetadata models).2 = (buildMetadata models).1 ∧
      (buildMetadata models).1 = models.length := by
  intro models
  exact ⟨sumVals_countCategories models, rfl⟩

/-- C1: `merge_sources` on two maps with unique keys produces a map whose
key set is the union of the inputs, each `model_id` exactly once; a model
present in both keeps every field of the Feed A record except that its
`sources` additionally carries Feed B's observation under the `"litellm"`
key (`mergePatch`); a model present only in Feed B is inserted as-is. -/
theorem merge_union_and_authority (A B : List (String × ModelInfo))
    (hA : keysNodup A) (hB : keysNodup B) :
    keysNodup (merge_sources A B) ∧
    ∀ k, lookupA k (merge_sources A B) =
      match lookupA k A, lookupA k B with
      | some a, some b => some (mergePatch a b)
      | some a, none => some a
      | none, some b => some b
      | none, none => none := by
  rw [merge_sources_eq_foldl]
  refine ⟨mergeFold_nodup B A hA, ?_⟩
  intro k
  rw [mergeFold_lookup B hB A k]
  cases lookupA k A <;> cases lookupA k B <;> simp

theorem merge_union_and_authority_witness :
    keysNodup (merge_sources c1MapA c1MapB) ∧
    ∀ k, lookupA k (merge_sources c1MapA c1MapB) =
      match lookupA k c1MapA, lookupA k c1MapB with
      | some a, some b => some (mergePatch a b)
      | some a, none => some a
      | none, some b => some b
      | none, none => none :=
  merge_union_and_authority c1MapA c1MapB (by decide) (by decide)

/-- C2: `normalize_litellm` never outputs an entry whose converted
per-million prices (the adapter's pre-rounding `input_per_million` /
`output_per_million`) are both exactly 0 — any such entry is excluded from
the output map — whereas `normalize_openrouter` stores a model whose
`pricing.prompt` and `pricing.completion` are both `"0"` with
`input_per_million = 0` and `output_per_million = 0`. -/
theorem feedB_zero_excluded_feedA_zero_included :
    (∀ (raw : JVal) (f : String) (out : List (String × ModelInfo)) (k : String)
        (md : JVal) (qi qo : ℚ),
      normalize_litellm raw f = some out →
      keysNodup (llData raw) →
      lookupA k (llData raw) = some md →
      llConvPricesV md = some (qi, qo) →
      qmul qi 1000000 = 0 → qmul qo 1000000 = 0 →
      lookupA k out = none) ∧
    ((getModel (normalize_openrouter orFreeDoc "t") "free-model").map
      (fun mi => (mi.pricing.input_per_million, mi.pricing.output_per_million)) =
      some (0, 0)) := by
  constructor
  · intro raw f out k md qi qo hout hnd hlook hconv hi ho
    cases raw with
    | jobj fs =>
      simp only [normalize_litellm] at hout
      cases hdata : lookupD fs "data" (.jobj []) with
      | jobj entries =>
        rw [hdata] at hout
        have hentries : llData (.jobj fs) = entries := by
          simp only [llData]
          rw [hdata]
        rw [hentries] at hlook hnd
        refine llFold_lookup_none f k entries [] out ?_ rfl hout
        intro mdv hmem mi
        have : mdv = md := by
          have := lookupA_of_mem_nodup hnd hmem
          rw [hlook] at this
          injection this with this
          exact this.symm
        subst this
        exact llItem_skip_of_zero hconv hi ho mi
      | jnull => rw [hdata] at hout; injection hout with hout; subst hout; rfl
      | jbool b => rw [hdata] at hout; injection hout with hout; subst hout; rfl
      | jnum q => rw [hdata] at hout; injection hout with hout; subst hout; rfl
      | jstr s => rw [hdata] at hout; injection hout with hout; subst hout; rfl
      | jarr l => rw [hdata] at hout; injection hout with hout; subst hout; rfl
    | jnull => simp only [normalize_litellm] at hout; exact Option.noConfusion hout
    | jbool b => simp only [normalize_litellm] at hout; exact Option.noConfusion hout
    | jnum q => simp only [normalize_litellm] at hout; exact Option.noConfusion hout
    | jstr s => simp only [normalize_litellm] at hout; exact Option.noConfusion hout
    | jarr l => simp only [normalize_litellm] at hout; exact Option.noConfusion hout
  · decide

theorem feedB_zero_excluded_feedA_zero_included_witness :
    normalize_litellm llZeroDoc "t" = some ((normalize_litellm llZeroDoc "t").getD []) ∧
    lookupA "zm" ((normalize_litellm llZeroDoc "t").getD []) = none :=
  ⟨by decide,
    feedB_zero_excluded_feedA_zero_included.1 llZeroDoc "t" _ "zm" llZeroEntry 0 0
      (by decide) (by decide) (by rfl) (by decide) (by decide) (by decide)⟩

/-- C3 as stated is false on the code: the adapters perform no sign
validation, so a Feed A item with `pricing.prompt = "-1"` is stored with
`pricing.input_per_million = -1000000 < 0`. -/
theorem adapter_prices_nonneg_counterexample :
    ((getModel (normalize_openrouter orNegDoc "t") "m").map
      (fun mi => mi.pricing.input_per_million)) = some (-1000000) ∧
    ((-1000000 : ℚ) < 0) :=
  ⟨by decide, by decide⟩

/-- C3 amended: for raw documents whose upstream per-token price fields all
parse to nonnegative values, every record in either adapter's output map has
nonnegative `pricing.input_per_million` and `pricing.output_per_million`. -/
theorem adapter_prices_nonneg_amended :
    (∀ (raw : JVal) (f : String) (out : List (String × ModelInfo)),
      normalize_openrouter raw f = some out →
      (∀ item ∈ orData raw, ∀ qi qo, orConvPrices item = .ok (qi, qo) →
        0 ≤ qi ∧ 0 ≤ qo) →
      ∀ k mi, lookupA k out = some mi →
        0 ≤ mi.pricing.input_per_million ∧ 0 ≤ mi.pricing.output_per_million) ∧
    (∀ (raw : JVal) (f : String) (out : List (String × ModelInfo)),
      normalize_litellm raw f = some out →
      (∀ p ∈ llData raw, ∀ qi qo, llConvPricesV p.2 = some (qi, qo) →
        0 ≤ qi ∧ 0 ≤ qo) →
      ∀ k mi, lookupA k out = some mi →
        0 ≤ mi.pricing.input_per_million ∧ 0 ≤ mi.pricing.output_per_million) := by
  constructor
  · intro raw f out hout hpos
    cases raw with
    | jobj fs =>
      simp only [normalize_openrouter] at hout
      cases hdata : lookupD fs "data" (.jarr []) with
      | jarr items =>
        rw [hdata] at hout
        have hitems : orData (.jobj fs) = items := by
          simp only [orData]
          rw [hdata]
        rw [hitems] at hpos
        refine orFold_invariant _ f items [] out ?_ (by intro k mi h; cases h) hout
        intro item hmem k mi hok
        obtain ⟨⟨qi, qo⟩, hconv⟩ := orItem_conv_ok hok
        obtain ⟨hin, hout'⟩ := orItem_prices hok hconv
        obtain ⟨hqi, hqo⟩ := hpos item hmem qi qo hconv
        rw [hin, hout']
        constructor
        · refine pyRound4_nonneg ?_
          rw [qmul_eq]
          positivity
        · refine pyRound4_nonneg ?_
          rw [qmul_eq]
          positivity
      | jnull => rw [hdata] at hout; injection hout with h; subst h; intro k mi h; cases h
      | jbool b => rw [hdata] at hout; injection hout with h; subst h; intro k mi h; cases h
      | jnum q => rw [hdata] at hout; injection hout with h; subst h; intro k mi h; cases h
      | jstr s => rw [hdata] at hout; injection hout with h; subst h; intro k mi h; cases h
      | jobj o => rw [hdata] at hout; injection hout with h; subst h; intro k mi h; cases h
    | jnull => simp only [normalize_openrouter] at hout; exact Option.noConfusion hout
    | jbool b => simp only [normalize_openrouter] at hout; exact Option.noConfusion hout
    | jnum q => simp only [normalize_openrouter] at hout; exact Option.noConfusion hout
    | jstr s => simp only [normalize_openrouter] at hout; exact Option.noConfusion hout
    | jarr l => simp only [normalize_openrouter] at hout; exact Option.noConfusion hout
  · intro raw f out hout hpos
    cases raw with
    | jobj fs =>
      simp only [normalize_litellm] at hout
      cases hdata : lookupD fs "data" (.jobj []) with
      | jobj entries =>
        rw [hdata] at hout
        have hentries : llData (.jobj fs) = entries := by
          simp only [llData]
          rw [hdata]
        rw [hentries] at hpos
        refine llFold_invariant _ f entries [] out ?_ (by intro k mi h; cases h) hout
        intro p hmem mi hok
        obtain ⟨⟨qi, qo⟩, hconv⟩ := llItem_conv_ok hok
        obtain ⟨hin, hout'⟩ := llItem_prices hok hconv
        obtain ⟨hqi, hqo⟩ := hpos p hmem qi qo hconv
        rw [hin, hout']
        constructor
        · refine pyRound4_nonneg ?_
          rw [qmul_eq]
          positivity
        · refine pyRound4_nonneg ?_
          rw [qmul_eq]
          positivity
      | jnull => rw [hdata] at hout; injection hout with h; subst h; intro k mi h; cases h
      | jbool b => rw [hdata] at hout; injection hout with h; subst h; intro k mi h; cases h
      | jnum q => rw [hdata] at hout; injection hout with h; subst h; intro k mi h; cases h
      | jstr s => rw [hdata] at hout; injection hout with h; subst h; intro k mi h; cases h
      | jarr l => rw [hdata] at hout; injection hout with h; subst h; intro k mi h; cases h
    | jnull => simp only [normalize_litellm] at hout; exact Option.noConfusion hout
    | jbool b => simp only [normalize_litellm] at hout; exact Option.noConfusion hout
    | jnum q => simp only [normalize_litellm] at hout; exact Option.noConfusion hout
    | jstr s => simp only [normalize_litellm] at hout; exact Option.noConfusion hout
    | jarr l => simp only [normalize_litellm] at hout; exact Option.noConfusion hout

theorem adapter_prices_nonneg_amended_witness :
    normalize_openrouter orWitDoc "t" = some ((normalize_openrouter orWitDoc "t").getD []) ∧
    ∀ k mi, lookupA k ((normalize_openrouter orWitDoc "t").getD []) = some mi →
      0 ≤ mi.pricing.input_per_million ∧ 0 ≤ mi.pricing.output_per_million :=
  ⟨by decide,
    adapter_prices_nonneg_amended.1 orWitDoc "t" _ (by decide) (by
      intro item hmem qi qo hconv
      have hm : item = JVal.jobj [("id", JVal.jstr "w")] := by
        simpa [orData, orWitDoc, lookupD, lookupA] using hmem
      subst hm
      have hc : orConvPrices (JVal.jobj [("id", JVal.jstr "w")]) = PyR.ok ((0 : ℚ), (0 : ℚ)) := by
        decide
      rw [hc] at hconv
      injection hconv with hp
      injection hp with h1 h2
      rw [← h1, ← h2]
      exact ⟨le_refl 0, le_refl 0⟩)⟩

/-- C4 as stated is false on the code: an unrecognized truthy `mode` string
in a Feed B entry passes through verbatim as `model_type`, so the closed
vocabulary does not hold for arbitrary mode strings. -/
theorem model_type_vocab_counterexample :
    ((getModel (normalize_litellm llBanDoc "t") "foo-model").map
      (fun mi => mi.model_type)) = some "banana" ∧
    "banana" ∉ modelTypeVocab :=
  ⟨by decide, by decide⟩

/-- C4 amended: every record of the Feed A adapter has `model_type` in the
spec's vocabulary {chat, image, image_generation, embedding, audio, video,
rerank}, unconditionally; every record of the Feed B adapter does too,
provided each entry's declared `mode` is falsy/absent or one of the
recognized mode strings — an unrecognized truthy string mode passes through
verbatim. -/
theorem model_type_vocab_amended :
    (∀ (raw : JVal) (f : String) (out : List (String × ModelInfo)),
      normalize_openrouter raw f = some out →
      ∀ k mi, lookupA k out = some mi → mi.model_type ∈ modelTypeVocab) ∧
    (∀ (raw : JVal) (f : String) (out : List (String × ModelInfo)),
      normalize_litellm raw f = some out →
      (∀ p ∈ llData raw, modeRecognized (llModeOf p.2) = true) →
      ∀ k mi, lookupA k out = some mi → mi.model_type ∈ modelTypeVocab) := by
  constructor
  · intro raw f out hout
    cases raw with
    | jobj fs =>
      simp only [normalize_openrouter] at hout
      cases hdata : lookupD fs "data" (.jarr []) with
      | jarr items =>
        rw [hdata] at hout
        refine orFold_invariant _ f items [] out ?_ (by intro k mi h; cases h) hout
        intro item hmem k mi hok
        rcases orItem_model_type hok with h | h | h <;> rw [h] <;> decide
      | jnull => rw [hdata] at hout; injection hout with h; subst h; intro k mi h; cases h
      | jbool b => rw [hdata] at hout; injection hout with h; subst h; intro k mi h; cases h
      | jnum q => rw [hdata] at hout; injection hout with h; subst h; intro k mi h; cases h
      | jstr s => rw [hdata] at hout; injection hout with h; subst h; intro k mi h; cases h
      | jobj o => rw [hdata] at hout; injection hout with h; subst h; intro k mi h; cases h
    | jnull => simp only [normalize_openrouter] at hout; exact Option.noConfusion hout
    | jbool b => simp only [normalize_openrouter] at hout; exact Option.noConfusion hout
    | jnum q => simp only [normalize_openrouter] at hout; exact Option.noConfusion hout
    | jstr s => simp only [normalize_openrouter] at hout; exact Option.noConfusion hout
    | jarr l => simp only [normalize_openrouter] at hout; exact Option.noConfusion hout
  · intro raw f out hout hmode
    cases raw with
    | jobj fs =>
      simp only [normalize_litellm] at hout
      cases hdata : lookupD fs "data" (.jobj []) with
      | jobj entries =>
        rw [hdata] at hout
        have hentries : llData (.jobj fs) = entries := by
          simp only [llData]
          rw [hdata]
        rw [hentries] at hmode
        refine llFold_invariant _ f entries [] out ?_ (by intro k mi h; cases h) hout
        intro p hmem mi hok
        have hmt := llItem_model_type hok
        exact llModelType_vocab _ _ _ (hmode p hmem) hmt
      | jnull => rw [hdata] at hout; injection hout with h; subst h; intro k mi h; cases h
      | jbool b => rw [hdata] at hout; injection hout with h; subst h; intro k mi h; cases h
      | jnum q => rw [hdata] at hout; injection hout with h; subst h; intro k mi h; cases h
      | jstr s => rw [hdata] at hout; injection hout with h; subst h; intro k mi h; cases h
      | jarr l => rw [hdata] at hout; injection hout with h; subst h; intro k mi h; cases h
    | jnull => simp only [normalize_litellm] at hout; exact Option.noConfusion hout
    | jbool b => simp only [normalize_litellm] at hout; exact Option.noConfusion hout
    | jnum q => simp only [normalize_litellm] at hout; exact Option.noConfusion hout
    | jstr s => simp only [normalize_litellm] at hout; exact Option.noConfusion hout
    | jarr l => simp only [normalize_litellm] at hout; exact Option.noConfusion hout

theorem model_type_vocab_amended_witness :
    normalize_litellm llEmbDoc "t" = some ((normalize_litellm llEmbDoc "t").getD []) ∧
    ∀ k mi, lookupA k ((normalize_litellm llEmbDoc "t").getD []) = some mi →
      mi.model_type ∈ modelTypeVocab :=
  ⟨by decide,
    model_type_vocab_amended.2 llEmbDoc "t" _ (by decide) (by decide)⟩

/-- C10: the Feed A adapter only ever assigns `model_type` in
{chat, image, image_generation} — never embedding/audio/video/rerank; an
identifier containing `"embed"` yields `category = "embedding"` but
`model_type = "chat"`. -/
theorem feedA_model_type_restricted :
    (∀ (raw : JVal) (f : String) (out : List (String × ModelInfo)),
      normalize_openrouter raw f = some out →
      ∀ k mi, lookupA k out = some mi →
        mi.model_type = "chat" ∨ mi.model_type = "image" ∨
          mi.model_type = "image_generation") ∧
    ((getModel (normalize_openrouter orEmbDoc "t") "text-embed-1").map
      (fun mi => mi.category) = some "embedding") ∧
    ((getModel (normalize_openrouter orEmbDoc "t") "text-embed-1").map
      (fun mi => mi.model_type) = some "chat") := by
  refine ⟨?_, by decide, by decide⟩
  intro raw f out hout
  cases raw with
  | jobj fs =>
    simp only [normalize_openrouter] at hout
    cases hdata : lookupD fs "data" (.jarr []) with
    | jarr items =>
      rw [hdata] at hout
      refine orFold_invariant _ f items [] out ?_ (by intro k mi h; cases h) hout
      intro item hmem k mi hok
      exact orItem_model_type hok
    | jnull => rw [hdata] at hout; injection hout with h; subst h; intro k mi h; cases h
    | jbool b => rw [hdata] at hout; injection hout with h; subst h; intro k mi h; cases h
    | jnum q => rw [hdata] at hout; injection hout with h; subst h; intro k mi h; cases h
    | jstr s => rw [hdata] at hout; injection hout with h; subst h; intro k mi h; cases h
    | jobj o => rw [hdata] at hout; injection hout with h; subst h; intro k mi h; cases h
  | jnull => simp only [normalize_openrouter] at hout; exact Option.noConfusion hout
  | jbool b => simp only [normalize_openrouter] at hout; exact Option.noConfusion hout
  | jnum q => simp only [normalize_openrouter] at hout; exact Option.noConfusion hout
  | jstr s => simp only [normalize_openrouter] at hout; exact Option.noConfusion hout
  | jarr l => simp only [normalize_openrouter] at hout; exact Option.noConfusion hout

theorem feedA_model_type_restricted_witness :
    normalize_openrouter orEmbDoc "t" = some ((normalize_openrouter orEmbDoc "t").getD []) ∧
    ∀ k mi, lookupA k ((normalize_openrouter orEmbDoc "t").getD []) = some mi →
      mi.model_type = "chat" ∨ mi.model_type = "image" ∨
        mi.model_type = "image_generation" :=
  ⟨by decide, feedA_model_type_restricted.1 orEmbDoc "t" _ (by decide)⟩

theorem llItem_skip_of_badprice {fetched k : String} {mdv : JVal}
    (hconv : llConvPricesV mdv = none) :
    normalizeLLItem fetched k mdv = .skipI := by
  unfold normalizeLLItem
  cases mdv with
  | jobj md =>
    simp only [llConvPricesV] at hconv
    simp only
    split
    · rfl
    · rw [hconv]
  | jnull => rfl
  | jbool b => rfl
  | jnum q => rfl
  | jstr s => rfl
  | jarr l => rfl

theorem orItem_skip_of_badprice {fetched : String} {item : JVal}
    (hconv : orConvPrices item = .skipI) :
    normalizeORItem fetched item = .skipI := by
  unfold normalizeORItem
  cases item with
  | jobj fs =>
    simp only
    split
    · rfl
    · rw [hconv]
  | jnull => exact absurd hconv (by simp [orConvPrices])
  | jbool b => exact absurd hconv (by simp [orConvPrices])
  | jnum q => exact absurd hconv (by simp [orConvPrices])
  | jstr s => exact absurd hconv (by simp [orConvPrices])
  | jarr l => exact absurd hconv (by simp [orConvPrices])

theorem orFold_skip_splice (fetched : String) (item : JVal)
    (h : normalizeORItem fetched item = .skipI) :
    ∀ (pre post : List JVal) (acc : List (String × ModelInfo)),
      orFold fetched (pre ++ item :: post) acc = orFold fetched (pre ++ post) acc := by
  intro pre
  induction pre with
  | nil =>
    intro post acc
    simp only [List.nil_append]
    unfold orFold
    rw [h]
    cases post <;> rfl
  | cons x xs ih =>
    intro post acc
    simp only [List.cons_append]
    unfold orFold
    cases e : normalizeORItem fetched x with
    | ok p => exact ih post (insertA p.1 p.2 acc)
    | skipI => exact ih post acc
    | crash => rfl

theorem llFold_skip_splice (fetched k : String) (mdv : JVal)
    (h : normalizeLLItem fetched k mdv = .skipI) :
    ∀ (pre post : List (String × JVal)) (acc : List (String × ModelInfo)),
      llFold fetched (pre ++ (k, mdv) :: post) acc = llFold fetched (pre ++ post) acc := by
  intro pre
  induction pre with
  | nil =>
    intro post acc
    simp only [List.nil_append]
    unfold llFold
    rw [h]
    cases post <;> rfl
  | cons x xs ih =>
    intro post acc
    obtain ⟨k', mdv'⟩ := x
    simp only [List.cons_append]
    unfold llFold
    cases e : normalizeLLItem fetched k' mdv' with
    | ok mi => exact ih post (insertA k' mi acc)
    | skipI => exact ih post acc
    | crash => rfl

/-- C8: price conversion parses the per-token value (null/missing → 0),
multiplies by 1,000,000 and rounds to 4 decimals: `0.000005` converts to
`5.0`, a null or missing price converts to `0.0`, `0.00000123456` rounds
to `1.2346`; and universally, in both adapters, every item whose price
field fails numeric conversion is rejected (its processing yields a skip,
never a zeroed record), the surrounding fold is unchanged by such an item
(the remaining items are still processed identically), and for the keyed
Feed B every such entry's key is absent from the output map — with the
`orMixDoc`/`llMixDoc` conjuncts as concrete instances. -/
theorem price_conversion_policy :
    ((getModel (normalize_openrouter orUnitDoc "t") "m1").map
      (fun mi => (mi.pricing.input_per_million, mi.pricing.output_per_million)) =
      some (5, 15)) ∧
    ((getModel (normalize_openrouter orNullDoc "t") "w1").map
      (fun mi => (mi.pricing.input_per_million, mi.pricing.output_per_million)) =
      some (0, 0)) ∧
    ((getModel (normalize_openrouter orNullDoc "t") "w2").map
      (fun mi => (mi.pricing.input_per_million, mi.pricing.output_per_million)) =
      some (0, 0)) ∧
    ((getModel (normalize_openrouter orRoundDoc "t") "r1").map
      (fun mi => mi.pricing.input_per_million) = some (mkRat 12346 10000)) ∧
    (∀ (fetched : String) (item : JVal), orConvPrices item = .skipI →
      normalizeORItem fetched item = .skipI) ∧
    (∀ (fetched : String) (item : JVal) (pre post : List JVal)
        (acc : List (String × ModelInfo)), orConvPrices item = .skipI →
      orFold fetched (pre ++ item :: post) acc = orFold fetched (pre ++ post) acc) ∧
    (∀ (fetched k : String) (mdv : JVal), llConvPricesV mdv = none →
      normalizeLLItem fetched k mdv = .skipI) ∧
    (∀ (fetched k : String) (mdv : JVal) (pre post : List (String × JVal))
        (acc : List (String × ModelInfo)), llConvPricesV mdv = none →
      llFold fetched (pre ++ (k, mdv) :: post) acc = llFold fetched (pre ++ post) acc) ∧
    (∀ (raw : JVal) (f : String) (out : List (String × ModelInfo)) (k : String)
        (md : JVal),
      normalize_litellm raw f = some out →
      keysNodup (llData raw) →
      lookupA k (llData raw) = some md →
      llConvPricesV md = none →
      lookupA k out = none) ∧
    (getModel (normalize_openrouter orMixDoc "t") "bad" = none) ∧
    ((getModel (normalize_openrouter orMixDoc "t") "good").map
      (fun mi => mi.pricing.input_per_million) = some 1) ∧
    (getModel (normalize_litellm llMixDoc "t") "badm" = none) ∧
    ((getModel (normalize_litellm llMixDoc "t") "goodm").map
      (fun mi => mi.pricing.input_per_million) = some 2) := by
  refine ⟨by decide, by decide, by decide, by decide,
    fun fetched item h => orItem_skip_of_badprice h,
    fun fetched item pre post acc h =>
      orFold_skip_splice fetched item (orItem_skip_of_badprice h) pre post acc,
    fun fetched k mdv h => llItem_skip_of_badprice h,
    fun fetched k mdv pre post acc h =>
      llFold_skip_splice fetched k mdv (llItem_skip_of_badprice h) pre post acc,
    ?_, by decide, by decide, by decide, by decide⟩
  intro raw f out k md hout hnd hlook hconv
  cases raw with
  | jobj fs =>
    simp only [normalize_litellm] at hout
    cases hdata : lookupD fs "data" (.jobj []) with
    | jobj entries =>
      rw [hdata] at hout
      have hentries : llData (.jobj fs) = entries := by
        simp only [llData]
        rw [hdata]
      rw [hentries] at hlook hnd
      refine llFold_lookup_none f k entries [] out ?_ rfl hout
      intro mdv hmem mi
      have hmd : mdv = md := by
        have := lookupA_of_mem_nodup hnd hmem
        rw [hlook] at this
        injection this with this
        exact this.symm
      subst hmd
      rw [llItem_skip_of_badprice hconv]
      simp
    | jnull => rw [hdata] at hout; injection hout with h; subst h; rfl
    | jbool b => rw [hdata] at hout; injection hout with h; subst h; rfl
    | jnum q => rw [hdata] at hout; injection hout with h; subst h; rfl
    | jstr s => rw [hdata] at hout; injection hout with h; subst h; rfl
    | jarr l => rw [hdata] at hout; injection hout with h; subst h; rfl
  | jnull => simp only [normalize_litellm] at hout; exact Option.noConfusion hout
  | jbool b => simp only [normalize_litellm] at hout; exact Option.noConfusion hout
  | jnum q => simp only [normalize_litellm] at hout; exact Option.noConfusion hout
  | jstr s => simp only [normalize_litellm] at hout; exact Option.noConfusion hout
  | jarr l => simp only [normalize_litellm] at hout; exact Option.noConfusion hout

theorem price_conversion_policy_witness :
    normalize_litellm llMixDoc "t" = some ((normalize_litellm llMixDoc "t").getD []) ∧
    llConvPricesV llMixBadEntry = none ∧
    lookupA "badm" ((normalize_litellm llMixDoc "t").getD []) = none :=
  ⟨by decide, by decide,
    (price_conversion_policy.2.2.2.2.2.2.2.2.1) llMixDoc "t" _ "badm" llMixBadEntry
      (by decide) (by decide) (by rfl) (by decide)⟩

